import Mathlib

/-!
# Verification of the text-classification benchmark adapter

A shallow embedding of `src/scandeval/text_classification.py`
(`TextClassificationBenchmark`), together with proofs of the adapter's
contract.

Modelling decisions, all traceable to the source:

* A Hugging Face batch / dataset is column-oriented: an ordered association
  list from column name to a column of values (`BatchE`).  Python dicts keep
  insertion order and have unique keys; `setCol` updates the first matching
  key in place and appends otherwise, exactly like dict assignment.
* `Dataset.map(f, batched=True)` is modelled as applying `f` to the whole
  dataset viewed as one batch and merging the returned columns into the
  dataset (the Hugging Face semantics of a batched map whose function
  returns a dict of columns).
* Exceptions become `Except BenchErr`.  The Python list comprehension in
  `_create_numerical_labels` is evaluated in full before the assignment to
  `examples["label"]`, so a `KeyError` leaves the batch untouched; the
  embedding keeps that fact visible through `labelColAfterCall`.
* External collaborators (the tokenizer, the `mcc` metric object of the
  metric registry, `DataCollatorWithPadding` of the `transformers`
  library) are not part of this repository; they are modelled from their
  documented interfaces, with floating point numbers modelled as exact
  rationals and the metric value as a real number.
-/

/-- A single column of a Hugging Face batch: a list of strings (raw labels or
texts), a list of integers (numericalised labels), or a list of token-id /
attention-mask rows. -/
inductive Col where
  | strs (xs : List String)
  | ints (xs : List Int)
  | natss (xs : List (List Nat))
deriving DecidableEq, Repr

/-- A batch (or a whole dataset, column-oriented): an ordered association list
from column name to column, mirroring a Python dict of columns. -/
abbrev BatchE := List (String × Col)

/-- Dict lookup `examples[name]`: the first binding of `name`. -/
def getCol : BatchE → String → Option Col
  | [], _ => none
  | kv :: rest, n => if kv.1 = n then some kv.2 else getCol rest n

/-- Dict assignment `examples[name] = c`: replace the first binding of `name`
in place, append if absent (Python dict semantics). -/
def setCol : BatchE → String → Col → BatchE
  | [], n, c => [(n, c)]
  | kv :: rest, n, c => if kv.1 = n then (n, c) :: rest else kv :: setCol rest n c

/-- `remove_columns [name]`: drop the column. -/
def removeCol (b : BatchE) (n : String) : BatchE :=
  b.filter fun kv => kv.1 ≠ n

/-- The errors this adapter raises: every failure is an `InvalidBenchmark`. -/
inductive BenchErr where
  | invalidBenchmark (msg : String)
deriving DecidableEq, Repr

/-- The `label2id` mapping of the model configuration: label string to id. -/
abbrev Label2Id := List (String × Int)

/-- `label2id[lbl]`: first binding, `none` is Python's `KeyError`. -/
def lookupId : Label2Id → String → Option Int
  | [], _ => none
  | kv :: rest, l => if kv.1 = l then some kv.2 else lookupId rest l

/-- The list comprehension `[label2id[lbl] for lbl in labels]`: succeeds with
all ids iff every label is a key, fails at the first missing key. -/
def numericaliseIds (label2id : Label2Id) : List String → Option (List Int)
  | [] => some []
  | l :: rest =>
    match lookupId label2id l with
    | some v =>
      match numericaliseIds label2id rest with
      | some ids => some (v :: ids)
      | none => none
    | none => none

/-- Error message raised when a label is missing from `label2id` (the Python
message interpolates the offending batch and mapping; the text is abbreviated
here, only the exception class matters to the contract). -/
def missingLabelMsg : String :=
  "One of the labels in the dataset does not occur in the label2id dictionary."

/-- `_create_numerical_labels(examples, label2id)`: replace the string labels
of the batch by their ids; a `KeyError` (missing label, or missing/non-string
`label` column) is re-raised as `InvalidBenchmark`. -/
def createNumericalLabels (examples : BatchE) (label2id : Label2Id) :
    Except BenchErr BatchE :=
  match getCol examples "label" with
  | some (Col.strs ls) =>
    match numericaliseIds label2id ls with
    | some ids => Except.ok (setCol examples "label" (Col.ints ids))
    | none => Except.error (BenchErr.invalidBenchmark missingLabelMsg)
  | _ => Except.error (BenchErr.invalidBenchmark missingLabelMsg)

/-- The contents of the `label` column of the caller's `examples` dict after
`_create_numerical_labels` returns *or raises*: the comprehension is evaluated
in full before the assignment, so on `KeyError` the dict is unchanged. -/
def labelColAfterCall (examples : BatchE) (label2id : Label2Id) : BatchE :=
  match getCol examples "label" with
  | some (Col.strs ls) =>
    match numericaliseIds label2id ls with
    | some ids => setCol examples "label" (Col.ints ids)
    | none => examples
  | _ => examples

section AssocLemmas

theorem getCol_setCol_self (b : BatchE) (n : String) (c : Col) :
    getCol (setCol b n c) n = some c := by
  induction b with
  | nil => simp [setCol, getCol]
  | cons kv rest ih
    =>
    by_cases h : kv.1 = n
    · simp [setCol, h, getCol]
    · simp [setCol, h, getCol, ih]

theorem getCol_setCol_ne (b : BatchE) (n m : String) (c : Col) (h : m ≠ n) :
    getCol (setCol b n c) m = getCol b m := by
  have hnm : ¬(n = m) := fun hc => h hc.symm
  induction b with
  | nil => simp [setCol, getCol, hnm]
  | cons kv rest ih
    =>
    by_cases hk : kv.1 = n
    · have hkm : ¬(kv.1 = m) := by rw [hk]; exact hnm
      simp [setCol, hk, getCol, hnm, hkm]
    · simp [setCol, hk, getCol, ih]

theorem getCol_removeCol_self (b : BatchE) (n : String) :
    getCol (removeCol b n) n = none := by
  induction b with
  | nil => simp [removeCol, getCol]
  | cons kv rest ih
    =>
    rw [removeCol, List.filter_cons]
    by_cases hk : kv.1 = n
    · rw [if_neg (by simp [hk])]
      exact ih
    · rw [if_pos (by simp [hk])]
      show getCol (kv :: removeCol rest n) n = none
      simp [getCol, hk, ih]

theorem getCol_removeCol_ne (b : BatchE) (n m : String) (h : m ≠ n) :
    getCol (removeCol b n) m = getCol b m := by
  induction b with
  | nil => simp [removeCol, getCol]
  | cons kv rest ih
    =>
    rw [removeCol, List.filter_cons]
    by_cases hk : kv.1 = n
    · rw [if_neg (by simp [hk])]
      have hkm : ¬(kv.1 = m) := by rw [hk]; exact fun hc => h hc.symm
      show getCol (removeCol rest n) m = _
      rw [ih]
      simp [getCol, hkm]
    · rw [if_pos (by simp [hk])]
      show getCol (kv :: removeCol rest n) m = _
      by_cases hm : kv.1 = m
      · simp [getCol, hm]
      · simp [getCol, hm, ih]

/-- When every label is a key, the comprehension succeeds and produces the
looked-up ids in order. -/
theorem numericaliseIds_isSome (label2id : Label2Id) (ls : List String)
    (h : ∀ l ∈ ls, (lookupId label2id l).isSome) :
    ∃ ids, numericaliseIds label2id ls = some ids ∧
      ids = ls.map fun l => (lookupId label2id l).getD 0 := by
  induction ls with
  | nil => exact ⟨[], rfl, rfl⟩
  | cons a t ih
    =>
    obtain ⟨v, hv⟩ := Option.isSome_iff_exists.mp (h a (List.mem_cons_self a t))
    obtain ⟨ids, hids, hmap⟩ := ih fun l hl => h l (List.mem_cons_of_mem a hl)
    exact ⟨v :: ids, by simp [numericaliseIds, hv, hids], by simp [hmap, hv]⟩

theorem numericaliseIds_length (label2id : Label2Id) (ls : List String)
    (ids : List Int) (h : numericaliseIds label2id ls = some ids) :
    ids.length = ls.length := by
  induction ls generalizing ids with
  | nil =>
    simp only [numericaliseIds, Option.some.injEq] at h
    simp [← h]
  | cons a t ih
    =>
    cases hv : lookupId label2id a with
    | none => simp [numericaliseIds, hv] at h
    | some v =>
      cases htl : numericaliseIds label2id t with
      | none => simp [numericaliseIds, hv, htl] at h
      | some tl =>
        simp only [numericaliseIds, hv, htl, Option.some.injEq] at h
        simp [← h, ih tl htl]

theorem numericaliseIds_none (label2id : Label2Id) (ls : List String)
    (l : String) (hl : l ∈ ls) (h : lookupId label2id l = none) :
    numericaliseIds label2id ls = none := by
  induction ls with
  | nil => cases hl
  | cons a t ih
    =>
    rcases List.mem_cons.mp hl with h0 | h0
    · subst h0
      simp [numericaliseIds, h]
    · cases hv : lookupId label2id a with
      | none => simp [numericaliseIds, hv]
      | some v => simp [numericaliseIds, hv, ih h0]

end AssocLemmas

/-- C1: with every label a key of `label2id`, `_create_numerical_labels`
returns the batch with the `label` column replaced by the looked-up ids, in
order, same length, all other columns untouched. -/
theorem createNumericalLabels_total (examples : BatchE) (label2id : Label2Id)
    (ls : List String) (hcol : getCol examples "label" = some (Col.strs ls))
    (hall : ∀ l ∈ ls, (lookupId label2id l).isSome) :
    ∃ out, createNumericalLabels examples label2id = Except.ok out ∧
      getCol out "label" =
        some (Col.ints (ls.map fun l => (lookupId label2id l).getD 0)) ∧
      (ls.map fun l => (lookupId label2id l).getD 0).length = ls.length ∧
      ∀ m, m ≠ "label" → getCol out m = getCol examples m := by
  obtain ⟨ids, hids, hmap⟩ := numericaliseIds_isSome label2id ls hall
  refine ⟨setCol examples "label" (Col.ints ids), ?_, ?_, ?_, ?_⟩
  · simp [createNumericalLabels, hcol, hids]
  · rw [getCol_setCol_self, hmap]
  · simp
  · intro m hm
    exact getCol_setCol_ne examples "label" m (Col.ints ids) hm

theorem createNumericalLabels_total_witness :
    ∃ out,
      createNumericalLabels
          [("text", Col.strs ["a", "b"]), ("label", Col.strs ["pos", "neg"])]
          [("pos", 1), ("neg", 0)] = Except.ok out ∧
      getCol out "label" = some (Col.ints [1, 0]) ∧
      ([1, 0] : List Int).length = 2 ∧
      getCol out "text" = some (Col.strs ["a", "b"]) := by
  obtain ⟨out, h1, h2, _, h4⟩ := createNumericalLabels_total
    [("text", Col.strs ["a", "b"]), ("label", Col.strs ["pos", "neg"])]
    [("pos", 1), ("neg", 0)] ["pos", "neg"] (by decide) (by decide)
  refine ⟨out, h1, ?_, by decide, ?_⟩
  · simpa using h2
  · rw [h4 "text" (by decide)]
    decide

/-- C2: with some label missing from `label2id`, `_create_numerical_labels`
raises `InvalidBenchmark`, returns no batch, and the caller's `label` column
is left unmutated (the comprehension fails before the assignment). -/
theorem createNumericalLabels_missing (examples : BatchE) (label2id : Label2Id)
    (ls : List String) (l : String)
    (hcol : getCol examples "label" = some (Col.strs ls))
    (hl : l ∈ ls) (hmiss : lookupId label2id l = none) :
    createNumericalLabels examples label2id =
        Except.error (BenchErr.invalidBenchmark missingLabelMsg) ∧
      (∀ out, createNumericalLabels examples label2id ≠ Except.ok out) ∧
      labelColAfterCall examples label2id = examples := by
  have hnone := numericaliseIds_none label2id ls l hl hmiss
  refine ⟨?_, ?_, ?_⟩
  · simp [createNumericalLabels, hcol, hnone]
  · intro out
    simp [createNumericalLabels, hcol, hnone]
  · simp [labelColAfterCall, hcol, hnone]

theorem createNumericalLabels_missing_witness :
    createNumericalLabels [("label", Col.strs ["pos", "bad"])] [("pos", 1)] =
        Except.error (BenchErr.invalidBenchmark missingLabelMsg) ∧
      (∀ out, createNumericalLabels [("label", Col.strs ["pos", "bad"])]
          [("pos", 1)] ≠ Except.ok out) ∧
      labelColAfterCall [("label", Col.strs ["pos", "bad"])] [("pos", 1)] =
        [("label", Col.strs ["pos", "bad"])] :=
  createNumericalLabels_missing [("label", Col.strs ["pos", "bad"])]
    [("pos", 1)] ["pos", "bad"] "bad" (by decide) (by decide) (by decide)

/-! ## Preprocessing (`_preprocess_data`) -/

/-- The external Hugging Face tokenizer, modelled from the spec: called on the
batch of texts with truncation and padding enabled, it returns a token-id row
and an attention-mask row per text.  Truncation/padding are internal to the
external library and folded into the two abstract functions. -/
structure TokenizerE where
  ids : List String → List (List Nat)
  mask : List String → List (List Nat)

/-- The local `tokenise` closure of `_preprocess_data`: read `examples["text"]`
and return the tokenizer's output columns.  If the `text` column is missing or
non-string the Python call fails inside the external library; the adapter adds
no handling of its own (spec section 7), so that case is modelled as an empty
column update. -/
def tokenise (tok : TokenizerE) (examples : BatchE) : BatchE :=
  match getCol examples "text" with
  | some (Col.strs docs) =>
    [("input_ids", Col.natss (tok.ids docs)),
     ("attention_mask", Col.natss (tok.mask docs))]
  | _ => []

/-- `Dataset.map(f, batched=True)` merge step: the columns returned by the
batch function are written into the dataset, updating existing columns and
appending new ones. -/
def mergeCols (ds : BatchE) (upd : BatchE) : BatchE :=
  upd.foldl (fun acc kv => setCol acc kv.1 kv.2) ds

/-- `Dataset.map(f, batched=True)` with the whole dataset as one batch. -/
def mapBatched (ds : BatchE) (f : BatchE → BatchE) : BatchE :=
  mergeCols ds (f ds)

/-- Message of the `InvalidBenchmark` raised on the SpaCy preprocessing path. -/
def spacyPreprocessMsg : String :=
  "Evaluation of text predictions for SpaCy models is not yet implemented."

/-- `_preprocess_data(dataset, framework, **kwargs)`.

* `framework == "pytorch"`: tokenize the whole dataset (batched map), map the
  string labels to ids via `_create_numerical_labels` (batched map whose
  function returns the whole mutated batch), then drop the `text` column.
* `framework == "spacy"`: raise `InvalidBenchmark`.
* any other framework: the Python function falls through both branches and
  implicitly returns `None`, modelled as `Except.ok none`. -/
def preprocessData (dataset : BatchE) (framework : String) (tok : TokenizerE)
    (label2id : Label2Id) : Except BenchErr (Option BatchE) :=
  if framework = "pytorch" then
    let tokenised := mapBatched dataset (tokenise tok)
    match createNumericalLabels tokenised label2id with
    | Except.ok preprocessed => Except.ok (some (removeCol preprocessed "text"))
    | Except.error e => Except.error e
  else if framework = "spacy" then
    Except.error (BenchErr.invalidBenchmark spacyPreprocessMsg)
  else
    Except.ok none

theorem mapBatched_tokenise (ds : BatchE) (tok : TokenizerE)
    (docs : List String) (h : getCol ds "text" = some (Col.strs docs)) :
    mapBatched ds (tokenise tok) =
      setCol (setCol ds "input_ids" (Col.natss (tok.ids docs)))
        "attention_mask" (Col.natss (tok.mask docs)) := by
  simp [mapBatched, tokenise, h, mergeCols, List.foldl]

/-- C4: on the `"pytorch"` path, preprocessing a dataset whose labels all
occur in `label2id` yields a dataset without the `text` column, whose `label`
column holds the looked-up integer ids and whose `input_ids` and
`attention_mask` columns are the tokenizer's output on the texts. -/
theorem preprocessData_pytorch (ds : BatchE) (tok : TokenizerE)
    (label2id : Label2Id) (docs : List String) (ls : List String)
    (htext : getCol ds "text" = some (Col.strs docs))
    (hlabel : getCol ds "label" = some (Col.strs ls))
    (hall : ∀ l ∈ ls, (lookupId label2id l).isSome) :
    ∃ final, preprocessData ds "pytorch" tok label2id =
        Except.ok (some final) ∧
      getCol final "text" = none ∧
      getCol final "label" =
        some (Col.ints (ls.map fun l => (lookupId label2id l).getD 0)) ∧
      getCol final "input_ids" = some (Col.natss (tok.ids docs)) ∧
      getCol final "attention_mask" = some (Col.natss (tok.mask docs)) := by
  have htok := mapBatched_tokenise ds tok docs htext
  have hlabel' : getCol (mapBatched ds (tokenise tok)) "label" =
      some (Col.strs ls) := by
    rw [htok, getCol_setCol_ne _ _ _ _ (by decide),
      getCol_setCol_ne _ _ _ _ (by decide), hlabel]
  obtain ⟨out, hok, hlab, _, hother⟩ :=
    createNumericalLabels_total (mapBatched ds (tokenise tok)) label2id ls
      hlabel' hall
  refine ⟨removeCol out "text", ?_, ?_, ?_, ?_, ?_⟩
  · have hstep : preprocessData ds "pytorch" tok label2id =
        (match createNumericalLabels (mapBatched ds (tokenise tok)) label2id
          with
        | Except.ok preprocessed =>
          Except.ok (some (removeCol preprocessed "text"))
        | Except.error e => Except.error e) := by
      show (if ("pytorch" : String) = "pytorch" then _ else _) = _
      rw [if_pos rfl]
    rw [hstep, hok]
  · exact getCol_removeCol_self out "text"
  · rw [getCol_removeCol_ne _ _ _ (by decide)]
    exact hlab
  · rw [getCol_removeCol_ne _ _ _ (by decide),
      hother "input_ids" (by decide), htok,
      getCol_setCol_ne _ _ _ _ (by decide), getCol_setCol_self]
  · rw [getCol_removeCol_ne _ _ _ (by decide),
      hother "attention_mask" (by decide), htok, getCol_setCol_self]

theorem preprocessData_pytorch_witness :
    ∃ final,
      preprocessData [("text", Col.strs ["a"]), ("label", Col.strs ["pos"])]
          "pytorch"
          ⟨fun docs => docs.map fun _ => [0], fun docs => docs.map fun _ => [1]⟩
          [("pos", 1), ("neg", 0)] = Except.ok (some final) ∧
      getCol final "text" = none ∧
      getCol final "label" = some (Col.ints [1]) ∧
      getCol final "input_ids" = some (Col.natss [[0]]) ∧
      getCol final "attention_mask" = some (Col.natss [[1]]) := by
  obtain ⟨final, h1, h2, h3, h4, h5⟩ := preprocessData_pytorch
    [("text", Col.strs ["a"]), ("label", Col.strs ["pos"])]
    ⟨fun docs => docs.map fun _ => [0], fun docs => docs.map fun _ => [1]⟩
    [("pos", 1), ("neg", 0)] ["a"] ["pos"] (by decide) (by decide) (by decide)
  exact ⟨final, h1, h2, by simpa using h3, by simpa using h4, by simpa using h5⟩

/-- C5: preprocessing with framework `"spacy"` always raises
`InvalidBenchmark`, whatever the dataset and keyword arguments. -/
theorem preprocessData_spacy (ds : BatchE) (tok : TokenizerE)
    (label2id : Label2Id) :
    preprocessData ds "spacy" tok label2id =
        Except.error (BenchErr.invalidBenchmark spacyPreprocessMsg) ∧
      ∀ res, preprocessData ds "spacy" tok label2id ≠ Except.ok res := by
  constructor
  · show (if ("spacy" : String) = "pytorch" then _
      else if ("spacy" : String) = "spacy" then _ else _) = _
    rw [if_neg (by decide), if_pos rfl]
  · intro res h
    rw [show preprocessData ds "spacy" tok label2id =
        Except.error (BenchErr.invalidBenchmark spacyPreprocessMsg) from by
      show (if ("spacy" : String) = "pytorch" then _
        else if ("spacy" : String) = "spacy" then _ else _) = _
      rw [if_neg (by decide), if_pos rfl]] at h
    cases h

/-- C10: for any framework tag other than `"pytorch"` and `"spacy"`, the
Python function falls through both branches and returns `None`: no error is
raised and no dataset is produced. -/
theorem preprocessData_other (ds : BatchE) (tok : TokenizerE)
    (label2id : Label2Id) (framework : String)
    (h1 : framework ≠ "pytorch") (h2 : framework ≠ "spacy") :
    preprocessData ds framework tok label2id = Except.ok none := by
  show (if framework = "pytorch" then _
    else if framework = "spacy" then _ else _) = _
  rw [if_neg h1, if_neg h2]

theorem preprocessData_other_witness :
    preprocessData [("text", Col.strs ["a"])] "jax"
        ⟨fun docs => docs.map fun _ => [0], fun docs => docs.map fun _ => [1]⟩
        [("pos", 1)] = Except.ok none :=
  preprocessData_other [("text", Col.strs ["a"])]
    ⟨fun docs => docs.map fun _ => [0], fun docs => docs.map fun _ => [1]⟩
    [("pos", 1)] "jax" (by decide) (by decide)

/-! ## Collator construction (`_load_data_collator`) -/

/-- The padding strategies of the external `DataCollatorWithPadding`:
`"longest"` pads to the longest sequence in the batch, `"max_length"` to a
fixed global maximum, `False`/`"do_not_pad"` not at all. -/
inductive PaddingStrategy where
  | longest
  | maxLength (n : Nat)
  | doNotPad
deriving DecidableEq, Repr

/-- The external `DataCollatorWithPadding`, as configured: a tokenizer (whose
padding convention it uses) and a padding strategy. -/
structure DataCollatorE where
  tokenizer : Option TokenizerE
  padding : PaddingStrategy

/-- `_load_data_collator(tokenizer)`: construct
`DataCollatorWithPadding(tokenizer, padding="longest")`. -/
def loadDataCollator (tokenizer : Option TokenizerE) : DataCollatorE :=
  { tokenizer := tokenizer, padding := PaddingStrategy.longest }

/-- Length of the longest sequence in a batch. -/
def batchMaxLen (batch : List (List Nat)) : Nat :=
  (batch.map List.length).foldr max 0

/-- Pad one sequence with `padId` up to length `len`. -/
def padTo (padId : Nat) (len : Nat) (seq : List Nat) : List Nat :=
  seq ++ List.replicate (len - seq.length) padId

/-- Modelled from the spec: the batch-collation behaviour of the external
`DataCollatorWithPadding` (the `transformers` library, not part of this
repository) on the token-id rows of a batch — `"longest"` pads every row to
the longest row of that batch, `"max_length"` to the fixed global maximum. -/
def collate (c : DataCollatorE) (padId : Nat) (batch : List (List Nat)) :
    List (List Nat) :=
  match c.padding with
  | PaddingStrategy.longest => batch.map (padTo padId (batchMaxLen batch))
  | PaddingStrategy.maxLength n => batch.map (padTo padId n)
  | PaddingStrategy.doNotPad => batch

theorem length_le_batchMaxLen (batch : List (List Nat)) (seq : List Nat)
    (h : seq ∈ batch) : seq.length ≤ batchMaxLen batch := by
  induction batch with
  | nil => cases h
  | cons a t ih
    =>
    have hmax : batchMaxLen (a :: t) = max a.length (batchMaxLen t) := by
      simp [batchMaxLen]
    rcases List.mem_cons.mp h with h0 | h0
    · rw [hmax, h0]
      exact le_max_left _ _
    · rw [hmax]
      exact le_trans (ih h0) (le_max_right _ _)

theorem padTo_length (padId len : Nat) (seq : List Nat)
    (h : seq.length ≤ len) : (padTo padId len seq).length = len := by
  simp [padTo]
  omega

/-- C7: `_load_data_collator` configures the collator with the `"longest"`
padding strategy, so every batch is padded to the longest sequence of that
batch, not to a fixed global maximum. -/
theorem loadDataCollator_pads_to_batch_longest (tokenizer : Option TokenizerE) :
    (loadDataCollator tokenizer).padding = PaddingStrategy.longest ∧
      ∀ padId batch seq,
        seq ∈ collate (loadDataCollator tokenizer) padId batch →
          seq.length = batchMaxLen batch := by
  refine ⟨rfl, fun padId batch seq h => ?_⟩
  simp only [collate, loadDataCollator] at h
  obtain ⟨orig, horig, hpad⟩ := List.mem_map.mp h
  rw [← hpad]
  exact padTo_length padId _ orig (length_le_batchMaxLen batch orig horig)

theorem loadDataCollator_pads_witness :
    ([5, 0] : List Nat).length = batchMaxLen [[5], [6, 7]] ∧
      ([6, 7] : List Nat).length = batchMaxLen [[5], [6, 7]] := by
  have h := (loadDataCollator_pads_to_batch_longest none).2
  exact ⟨h 0 [[5], [6, 7]] [5, 0] (by decide),
    h 0 [[5], [6, 7]] [6, 7] (by decide)⟩

/-! ## SpaCy prediction stub (`_get_spacy_predictions_and_labels`) -/

/-- Message of the `InvalidBenchmark` raised by the SpaCy prediction stub. -/
def spacyPredictMsg : String :=
  "Evaluation of text classification tasks for SpaCy models is not yet implemented."

/-- `_get_spacy_predictions_and_labels(model, dataset)`: unconditionally
raises `InvalidBenchmark`; the documented return type (a pair of probability
predictions and true labels) is never produced. -/
def getSpacyPredictionsAndLabels {Model : Type} (model : Model)
    (dataset : BatchE) : Except BenchErr (List (List ℚ) × List Nat) :=
  Except.error (BenchErr.invalidBenchmark spacyPredictMsg)

/-- C6: for every model and dataset, the SpaCy prediction path raises
`InvalidBenchmark` ("not yet implemented") and never returns a
predictions/labels pair. -/
theorem getSpacyPredictionsAndLabels_always_raises {Model : Type}
    (model : Model) (dataset : BatchE) :
    getSpacyPredictionsAndLabels model dataset =
        Except.error (BenchErr.invalidBenchmark spacyPredictMsg) ∧
      ∀ pair, getSpacyPredictionsAndLabels model dataset ≠ Except.ok pair :=
  ⟨rfl, fun pair h => by cases h⟩

/-! ## Metric computation (`_compute_metrics`)

The adapter feeds the per-row arg-max of the prediction scores and the gold
labels to the external `mcc` metric object.  Scores are modelled as exact
rationals; the Matthews correlation coefficient (the metric object is the
external metric registry's, not code of this repository) is modelled from the
spec by its standard multiclass formula over the confusion counts, with the
usual convention that a vanishing denominator yields 0. -/

/-- numpy `argmax(axis=-1)` on one score row: the first index attaining the
maximum. -/
def argmaxIdx (row : List ℚ) : Nat :=
  row.findIdx fun v => decide (v = row.foldr max (row.headD 0))

/-- The set of class ids occurring among predictions or gold labels. -/
def mccClasses (preds labels : List Nat) : Finset Nat :=
  (preds ++ labels).toFinset

/-- Number of positions where prediction and gold label agree. -/
def mccMatches (preds labels : List Nat) : Nat :=
  (preds.zip labels).countP fun pr => decide (pr.1 = pr.2)

/-- Numerator of the multiclass Matthews correlation coefficient:
`n·c − Σ_k p_k·t_k` with `n` the number of examples, `c` the number of
matches, `p_k`/`t_k` the predicted/true counts of class `k`. -/
def mccNum (preds labels : List Nat) : ℚ :=
  (labels.length : ℚ) * (mccMatches preds labels : ℚ) -
    ∑ k ∈ mccClasses preds labels,
      (preds.count k : ℚ) * (labels.count k : ℚ)

/-- Predicted-marginal factor of the denominator: `n² − Σ_k p_k²`. -/
def mccDenP (preds labels : List Nat) : ℚ :=
  (labels.length : ℚ) ^ 2 -
    ∑ k ∈ mccClasses preds labels, (preds.count k : ℚ) ^ 2

/-- True-marginal factor of the denominator: `n² − Σ_k t_k²`. -/
def mccDenT (preds labels : List Nat) : ℚ :=
  (labels.length : ℚ) ^ 2 -
    ∑ k ∈ mccClasses preds labels, (labels.count k : ℚ) ^ 2

/-- Modelled from the spec: the Matthews correlation coefficient computed by
the external `mcc` metric object on predicted classes vs. gold labels,
`(n·c − Σ p_k t_k) / √((n² − Σ p_k²)(n² − Σ t_k²))`, `0` when the denominator
vanishes. -/
noncomputable def matthewsCorr (preds labels : List Nat) : ℝ :=
  if mccDenP preds labels * mccDenT preds labels = 0 then 0
  else (mccNum preds labels : ℝ) /
    Real.sqrt ((mccDenP preds labels * mccDenT preds labels : ℚ) : ℝ)

/-- `_compute_metrics(predictions_and_labels, id2label)`: arg-max the score
rows, hand predicted classes and gold labels to the `mcc` metric, and return
the single-entry mapping `{"mcc": value}`.  The `id2label` argument is
accepted and never read, as in the source. -/
noncomputable def computeMetrics
    (predictionsAndLabels : List (List ℚ) × List Nat)
    (id2label : Option (List String)) : List (String × ℝ) :=
  [("mcc", matthewsCorr (predictionsAndLabels.1.map argmaxIdx)
      predictionsAndLabels.2)]

section MccBound

/-- 0/1 indicator of `a = k`, the one-hot encoding entry used to express the
confusion counts. -/
def ind (a k : Nat) : ℚ :=
  if a = k then 1 else 0

theorem ind_sq (a k : Nat) : ind a k * ind a k = ind a k := by
  unfold ind
  split_ifs <;> norm_num

theorem ind_mul_ind_of_ne (a b k : Nat) (h : a ≠ b) :
    ind a k * ind b k = 0 := by
  unfold ind
  split_ifs with h1 h2 h3
  · exact absurd (h1.trans h2.symm) h
  · ring
  · ring
  · ring

theorem sum_ind (s : Finset Nat) (a : Nat) (h : a ∈ s) :
    ∑ k ∈ s, ind a k = 1 := by
  unfold ind
  rw [Finset.sum_ite_eq s a fun _ => (1 : ℚ)]
  exact if_pos h

theorem sum_ind_mul_ind (s : Finset Nat) (a b : Nat) (ha : a ∈ s) :
    ∑ k ∈ s, ind a k * ind b k = if a = b then (1 : ℚ) else 0 := by
  by_cases hab : a = b
  · subst hab
    rw [if_pos rfl, ← sum_ind s a ha]
    exact Finset.sum_congr rfl fun k _ => ind_sq a k
  · rw [if_neg hab]
    rw [Finset.sum_congr rfl fun k _ => ind_mul_ind_of_ne a b k hab]
    exact Finset.sum_const_zero

/-- The count of `k` in a list is the sum of the one-hot entries over the
positions. -/
theorem count_eq_sum_ind (l : List Nat) (k : Nat) :
    ∑ i ∈ Finset.range l.length, ind (l.getD i 0) k = (l.count k : ℚ) := by
  induction l with
  | nil => simp
  | cons a t ih
    =>
    rw [show (a :: t).length = t.length + 1 from rfl, Finset.sum_range_succ']
    simp only [List.getD_cons_succ, List.getD_cons_zero]
    rw [ih, List.count_cons]
    unfold ind
    simp only [beq_iff_eq]
    push_cast
    split_ifs <;> ring

theorem getD_mem_of_lt (l : List Nat) (i : Nat) (h : i < l.length) :
    l.getD i 0 ∈ l := by
  rw [List.getD_eq_getElem l 0 h]
  exact List.getElem_mem h

theorem mem_mccClasses_left (preds labels : List Nat) (a : Nat)
    (h : a ∈ preds) : a ∈ mccClasses preds labels := by
  rw [mccClasses, List.mem_toFinset, List.mem_append]
  exact Or.inl h

theorem mem_mccClasses_right (preds labels : List Nat) (a : Nat)
    (h : a ∈ labels) : a ∈ mccClasses preds labels := by
  rw [mccClasses, List.mem_toFinset, List.mem_append]
  exact Or.inr h

/-- The matches count is the sum over positions of the agreement
indicators. -/
theorem matches_eq_sum (preds labels : List Nat)
    (h : preds.length = labels.length) :
    ∑ i ∈ Finset.range labels.length,
        (if preds.getD i 0 = labels.getD i 0 then (1 : ℚ) else 0) =
      (mccMatches preds labels : ℚ) := by
  induction preds generalizing labels with
  | nil =>
    have : labels = [] := List.length_eq_zero.mp h.symm
    subst this
    simp [mccMatches]
  | cons p pt ih
    =>
    cases labels with
    | nil => simp at h
    | cons q qt =>
      have h' : pt.length = qt.length := by simpa using h
      rw [show (q :: qt).length = qt.length + 1 from rfl,
        Finset.sum_range_succ']
      simp only [List.getD_cons_succ, List.getD_cons_zero]
      rw [ih qt h']
      have : mccMatches (p :: pt) (q :: qt) =
          mccMatches pt qt + if p = q then 1 else 0 := by
        simp [mccMatches, List.countP_cons]
      rw [this]
      push_cast
      split_ifs <;> ring

end MccBound

section MccSums

/-- Agreement sum over the product index set: positions × classes. -/
theorem sum_prod_ind_ind (preds labels : List Nat) (s : Finset Nat)
    (h : preds.length = labels.length)
    (hsub : ∀ a ∈ preds, a ∈ s) :
    ∑ ik ∈ Finset.range labels.length ×ˢ s,
        (ind (preds.getD ik.1 0) ik.2 * ind (labels.getD ik.1 0) ik.2) =
      (mccMatches preds labels : ℚ) := by
  rw [Finset.sum_product, ← matches_eq_sum preds labels h]
  refine Finset.sum_congr rfl fun i hi => ?_
  have hi' : i < preds.length := by
    rw [h]
    exact Finset.mem_range.mp hi
  dsimp only
  exact sum_ind_mul_ind s _ _ (hsub _ (getD_mem_of_lt preds i hi'))

/-- One-hot column weighted by a per-class factor. -/
theorem sum_prod_ind_count (x : List Nat) (c : Nat → ℚ) (s : Finset Nat)
    (N : Nat) (hN : N = x.length) :
    ∑ ik ∈ Finset.range N ×ˢ s, (ind (x.getD ik.1 0) ik.2 * c ik.2) =
      ∑ k ∈ s, (x.count k : ℚ) * c k := by
  subst hN
  rw [Finset.sum_product_right]
  refine Finset.sum_congr rfl fun k _ => ?_
  dsimp only
  rw [← Finset.sum_mul, count_eq_sum_ind x k]

/-- A per-class factor summed over the product set. -/
theorem sum_prod_const (c : Nat → ℚ) (s : Finset Nat) (N : Nat) :
    ∑ ik ∈ Finset.range N ×ˢ s, c ik.2 = (N : ℚ) * ∑ k ∈ s, c k := by
  rw [Finset.sum_product_right, Finset.mul_sum]
  refine Finset.sum_congr rfl fun k _ => ?_
  dsimp only
  rw [Finset.sum_const, Finset.card_range, nsmul_eq_mul]

/-- A single one-hot column summed over the product set: the list length. -/
theorem sum_prod_ind (x : List Nat) (s : Finset Nat) (N : Nat)
    (hN : N = x.length) (hsub : ∀ a ∈ x, a ∈ s) :
    ∑ ik ∈ Finset.range N ×ˢ s, ind (x.getD ik.1 0) ik.2 =
      (x.length : ℚ) := by
  subst hN
  rw [Finset.sum_product]
  have hone : ∀ i ∈ Finset.range x.length,
      ∑ k ∈ s, ind (x.getD i 0) k = 1 := fun i hi =>
    sum_ind s _ (hsub _ (getD_mem_of_lt x i (Finset.mem_range.mp hi)))
  rw [Finset.sum_congr rfl hone, Finset.sum_const, Finset.card_range,
    nsmul_eq_mul, mul_one]

/-- The class counts over any superset of the support sum to the length. -/
theorem sum_count_eq_length (x : List Nat) (s : Finset Nat)
    (hsub : ∀ a ∈ x, a ∈ s) :
    ∑ k ∈ s, (x.count k : ℚ) = (x.length : ℚ) := by
  have h := sum_prod_ind x s x.length rfl hsub
  rw [Finset.sum_product_right] at h
  rw [← h]
  refine Finset.sum_congr rfl fun k _ => ?_
  exact (count_eq_sum_ind x k).symm

/-- Cross sum of the two centred one-hot matrices: `n` times the numerator. -/
theorem sum_centered_cross (preds labels : List Nat)
    (h : preds.length = labels.length)
    (hsub : ∀ a ∈ preds, a ∈ mccClasses preds labels) :
    ∑ ik ∈ Finset.range labels.length ×ˢ mccClasses preds labels,
        (((labels.length : ℚ) * ind (preds.getD ik.1 0) ik.2 -
            (preds.count ik.2 : ℚ)) *
          ((labels.length : ℚ) * ind (labels.getD ik.1 0) ik.2 -
            (labels.count ik.2 : ℚ))) =
      (labels.length : ℚ) * mccNum preds labels := by
  have expand : ∀ ik ∈ Finset.range labels.length ×ˢ mccClasses preds labels,
      ((labels.length : ℚ) * ind (preds.getD ik.1 0) ik.2 -
          (preds.count ik.2 : ℚ)) *
        ((labels.length : ℚ) * ind (labels.getD ik.1 0) ik.2 -
          (labels.count ik.2 : ℚ)) =
      (labels.length : ℚ) ^ 2 *
          (ind (preds.getD ik.1 0) ik.2 * ind (labels.getD ik.1 0) ik.2) -
        (labels.length : ℚ) *
          (ind (preds.getD ik.1 0) ik.2 * (labels.count ik.2 : ℚ)) -
        (labels.length : ℚ) *
          (ind (labels.getD ik.1 0) ik.2 * (preds.count ik.2 : ℚ)) +
        (preds.count ik.2 : ℚ) * (labels.count ik.2 : ℚ) :=
    fun ik _ => by ring
  rw [Finset.sum_congr rfl expand, Finset.sum_add_distrib,
    Finset.sum_sub_distrib, Finset.sum_sub_distrib, ← Finset.mul_sum,
    ← Finset.mul_sum, ← Finset.mul_sum,
    sum_prod_ind_ind preds labels (mccClasses preds labels) h hsub,
    sum_prod_ind_count preds (fun k => (labels.count k : ℚ))
      (mccClasses preds labels) labels.length h.symm,
    sum_prod_ind_count labels (fun k => (preds.count k : ℚ))
      (mccClasses preds labels) labels.length rfl,
    sum_prod_const (fun k => (preds.count k : ℚ) * (labels.count k : ℚ))
      (mccClasses preds labels) labels.length,
    Finset.sum_congr rfl
      (fun k _ => mul_comm ((labels.count k : ℚ)) ((preds.count k : ℚ))),
    mccNum]
  ring

/-- Squared sum of one centred one-hot matrix: `n` times a denominator
factor. -/
theorem sum_centered_sq (x : List Nat) (s : Finset Nat) (N : Nat)
    (hN : N = x.length) (hsub : ∀ a ∈ x, a ∈ s) :
    ∑ ik ∈ Finset.range N ×ˢ s,
        ((N : ℚ) * ind (x.getD ik.1 0) ik.2 - (x.count ik.2 : ℚ)) ^ 2 =
      (N : ℚ) * ((N : ℚ) ^ 2 - ∑ k ∈ s, (x.count k : ℚ) ^ 2) := by
  subst hN
  have expand : ∀ ik ∈ Finset.range x.length ×ˢ s,
      ((x.length : ℚ) * ind (x.getD ik.1 0) ik.2 - (x.count ik.2 : ℚ)) ^ 2 =
      (x.length : ℚ) ^ 2 * ind (x.getD ik.1 0) ik.2 -
        (2 * (x.length : ℚ)) *
          (ind (x.getD ik.1 0) ik.2 * (x.count ik.2 : ℚ)) +
        (x.count ik.2 : ℚ) ^ 2 := by
    intro ik _
    have hsq := ind_sq (x.getD ik.1 0) ik.2
    linear_combination ((x.length : ℚ) ^ 2) * hsq
  rw [Finset.sum_congr rfl expand, Finset.sum_add_distrib,
    Finset.sum_sub_distrib, ← Finset.mul_sum, ← Finset.mul_sum,
    sum_prod_ind x s x.length rfl hsub,
    sum_prod_ind_count x (fun k => (x.count k : ℚ)) s x.length rfl,
    sum_prod_const (fun k => (x.count k : ℚ) ^ 2) s x.length]
  have hcsq : ∑ k ∈ s, (x.count k : ℚ) * (x.count k : ℚ) =
      ∑ k ∈ s, (x.count k : ℚ) ^ 2 :=
    Finset.sum_congr rfl fun k _ => (sq ((x.count k : ℚ))).symm
  rw [hcsq]
  ring

end MccSums

section MccMain

/-- Cauchy–Schwarz for the Matthews coefficient: the numerator squared is at
most the product of the two denominator factors.  The inequality is
Cauchy–Schwarz applied to the two centred one-hot matrices over the index set
positions × classes. -/
theorem mccNum_sq_le (preds labels : List Nat)
    (h : preds.length = labels.length) :
    mccNum preds labels ^ 2 ≤ mccDenP preds labels * mccDenT preds labels := by
  by_cases hzero : labels.length = 0
  · have hl : labels = [] := List.length_eq_zero.mp hzero
    have hp : preds = [] := List.length_eq_zero.mp (h.trans hzero)
    subst hl
    subst hp
    simp [mccNum, mccDenP, mccDenT, mccClasses, mccMatches]
  · have hsubP : ∀ a ∈ preds, a ∈ mccClasses preds labels :=
      fun a ha => mem_mccClasses_left preds labels a ha
    have hsubT : ∀ a ∈ labels, a ∈ mccClasses preds labels :=
      fun a ha => mem_mccClasses_right preds labels a ha
    have hn : (0 : ℚ) < (labels.length : ℚ) := by
      exact_mod_cast Nat.pos_of_ne_zero hzero
    have key : ((labels.length : ℚ) * mccNum preds labels) ^ 2 ≤
        ((labels.length : ℚ) *
            ((labels.length : ℚ) ^ 2 -
              ∑ k ∈ mccClasses preds labels, (preds.count k : ℚ) ^ 2)) *
          ((labels.length : ℚ) *
            ((labels.length : ℚ) ^ 2 -
              ∑ k ∈ mccClasses preds labels, (labels.count k : ℚ) ^ 2)) := by
      rw [← sum_centered_cross preds labels h hsubP,
        ← sum_centered_sq preds (mccClasses preds labels) labels.length
          h.symm hsubP,
        ← sum_centered_sq labels (mccClasses preds labels) labels.length
          rfl hsubT]
      exact Finset.sum_mul_sq_le_sq_mul_sq _ _ _
    have key2 : ((labels.length : ℚ)) ^ 2 * (mccNum preds labels ^ 2) ≤
        ((labels.length : ℚ)) ^ 2 *
          (mccDenP preds labels * mccDenT preds labels) := by
      have hP : mccDenP preds labels = (labels.length : ℚ) ^ 2 -
          ∑ k ∈ mccClasses preds labels, (preds.count k : ℚ) ^ 2 := rfl
      have hT : mccDenT preds labels = (labels.length : ℚ) ^ 2 -
          ∑ k ∈ mccClasses preds labels, (labels.count k : ℚ) ^ 2 := rfl
      rw [hP, hT]
      calc ((labels.length : ℚ)) ^ 2 * (mccNum preds labels ^ 2)
          = ((labels.length : ℚ) * mccNum preds labels) ^ 2 := by ring
        _ ≤ _ := key
        _ = ((labels.length : ℚ)) ^ 2 * (((labels.length : ℚ) ^ 2 -
              ∑ k ∈ mccClasses preds labels, (preds.count k : ℚ) ^ 2) *
              ((labels.length : ℚ) ^ 2 -
              ∑ k ∈ mccClasses preds labels, (labels.count k : ℚ) ^ 2)) := by
            ring
    exact le_of_mul_le_mul_left key2 (by positivity)

/-- The true-marginal denominator factor is nonnegative. -/
theorem mccDenT_nonneg (preds labels : List Nat) :
    0 ≤ mccDenT preds labels := by
  have h1 : ∑ k ∈ mccClasses preds labels, (labels.count k : ℚ) ^ 2 ≤
      (∑ k ∈ mccClasses preds labels, (labels.count k : ℚ)) ^ 2 :=
    Finset.sum_sq_le_sq_sum_of_nonneg fun k _ => by positivity
  rw [sum_count_eq_length labels (mccClasses preds labels)
    (fun a ha => mem_mccClasses_right preds labels a ha)] at h1
  have h2 : mccDenT preds labels = (labels.length : ℚ) ^ 2 -
      ∑ k ∈ mccClasses preds labels, (labels.count k : ℚ) ^ 2 := rfl
  rw [h2]
  linarith

/-- The predicted-marginal denominator factor is nonnegative when predictions
and labels have the same length. -/
theorem mccDenP_nonneg (preds labels : List Nat)
    (h : preds.length = labels.length) :
    0 ≤ mccDenP preds labels := by
  have h1 : ∑ k ∈ mccClasses preds labels, (preds.count k : ℚ) ^ 2 ≤
      (∑ k ∈ mccClasses preds labels, (preds.count k : ℚ)) ^ 2 :=
    Finset.sum_sq_le_sq_sum_of_nonneg fun k _ => by positivity
  rw [sum_count_eq_length preds (mccClasses preds labels)
    (fun a ha => mem_mccClasses_left preds labels a ha), h] at h1
  have h2 : mccDenP preds labels = (labels.length : ℚ) ^ 2 -
      ∑ k ∈ mccClasses preds labels, (preds.count k : ℚ) ^ 2 := rfl
  rw [h2]
  linarith

/-- The Matthews correlation coefficient lies in `[-1, 1]`. -/
theorem matthewsCorr_mem_Icc (preds labels : List Nat)
    (h : preds.length = labels.length) :
    -1 ≤ matthewsCorr preds labels ∧ matthewsCorr preds labels ≤ 1 := by
  unfold matthewsCorr
  by_cases hd : mccDenP preds labels * mccDenT preds labels = 0
  · rw [if_pos hd]
    constructor <;> norm_num
  · rw [if_neg hd]
    have hdpos : (0 : ℚ) < mccDenP preds labels * mccDenT preds labels :=
      lt_of_le_of_ne
        (mul_nonneg (mccDenP_nonneg preds labels h)
          (mccDenT_nonneg preds labels)) (Ne.symm hd)
    have hdposR :
        (0 : ℝ) < ((mccDenP preds labels * mccDenT preds labels : ℚ) : ℝ) := by
      exact_mod_cast hdpos
    have hsq : ((mccNum preds labels : ℚ) : ℝ) ^ 2 ≤
        ((mccDenP preds labels * mccDenT preds labels : ℚ) : ℝ) := by
      exact_mod_cast mccNum_sq_le preds labels h
    have hsqrtpos : 0 < Real.sqrt
        ((mccDenP preds labels * mccDenT preds labels : ℚ) : ℝ) :=
      Real.sqrt_pos.mpr hdposR
    have habs : |((mccNum preds labels : ℚ) : ℝ)| ≤ Real.sqrt
        ((mccDenP preds labels * mccDenT preds labels : ℚ) : ℝ) := by
      rw [Real.le_sqrt (abs_nonneg _) (le_of_lt hdposR), sq_abs]
      exact hsq
    have hfrac : |((mccNum preds labels : ℚ) : ℝ) / Real.sqrt
        ((mccDenP preds labels * mccDenT preds labels : ℚ) : ℝ)| ≤ 1 := by
      rw [abs_div, abs_of_nonneg (Real.sqrt_nonneg _)]
      exact (div_le_one hsqrtpos).mpr habs
    exact abs_le.mp hfrac

end MccMain

section MccExample

theorem mccClasses_example : mccClasses [1, 0, 1] [1, 0, 0] = {1, 0} := rfl

theorem mccNum_example : mccNum [1, 0, 1] [1, 0, 0] = 2 := by
  rw [mccNum, mccClasses_example, Finset.sum_insert (by decide),
    Finset.sum_singleton,
    show ([1, 0, 1] : List Nat).count 1 = 2 from by decide,
    show ([1, 0, 0] : List Nat).count 1 = 1 from by decide,
    show ([1, 0, 1] : List Nat).count 0 = 1 from by decide,
    show ([1, 0, 0] : List Nat).count 0 = 2 from by decide,
    show mccMatches [1, 0, 1] [1, 0, 0] = 2 from by decide]
  norm_num

theorem mccDenP_example : mccDenP [1, 0, 1] [1, 0, 0] = 4 := by
  rw [mccDenP, mccClasses_example, Finset.sum_insert (by decide),
    Finset.sum_singleton,
    show ([1, 0, 1] : List Nat).count 1 = 2 from by decide,
    show ([1, 0, 1] : List Nat).count 0 = 1 from by decide]
  norm_num

theorem mccDenT_example : mccDenT [1, 0, 1] [1, 0, 0] = 4 := by
  rw [mccDenT, mccClasses_example, Finset.sum_insert (by decide),
    Finset.sum_singleton,
    show ([1, 0, 0] : List Nat).count 1 = 1 from by decide,
    show ([1, 0, 0] : List Nat).count 0 = 2 from by decide]
  norm_num

/-- On the spec's example the coefficient evaluates to `2/√16 = 1/2`. -/
theorem matthewsCorr_example : matthewsCorr [1, 0, 1] [1, 0, 0] = 1 / 2 := by
  unfold matthewsCorr
  rw [mccDenP_example, mccDenT_example, mccNum_example,
    if_neg (by norm_num : ¬((4 : ℚ) * 4 = 0)),
    show (((4 : ℚ) * 4 : ℚ) : ℝ) = (4 : ℝ) ^ 2 from by norm_num,
    Real.sqrt_sq (by norm_num : (0 : ℝ) ≤ 4)]
  norm_num

theorem argmaxIdx_row1 : argmaxIdx [1 / 10, 9 / 10] = 1 := by
  have hmax : ([1 / 10, 9 / 10] : List ℚ).foldr max
      (([1 / 10, 9 / 10] : List ℚ).headD 0) = 9 / 10 := by
    show max (1 / 10 : ℚ) (max (9 / 10) (1 / 10)) = 9 / 10
    rw [max_eq_left (by norm_num : (1 / 10 : ℚ) ≤ 9 / 10),
      max_eq_right (by norm_num : (1 / 10 : ℚ) ≤ 9 / 10)]
  have h1 : decide ((1 / 10 : ℚ) = 9 / 10) = false :=
    decide_eq_false (by norm_num)
  have h2 : decide ((9 / 10 : ℚ) = 9 / 10) = true := decide_eq_true rfl
  simp only [argmaxIdx, hmax, List.findIdx_cons, h1, h2, cond_false, cond_true]
  rfl

theorem argmaxIdx_row2 : argmaxIdx [8 / 10, 2 / 10] = 0 := by
  have hmax : ([8 / 10, 2 / 10] : List ℚ).foldr max
      (([8 / 10, 2 / 10] : List ℚ).headD 0) = 8 / 10 := by
    show max (8 / 10 : ℚ) (max (2 / 10) (8 / 10)) = 8 / 10
    rw [max_eq_right (by norm_num : (2 / 10 : ℚ) ≤ 8 / 10), max_self]
  have h1 : decide ((8 / 10 : ℚ) = 8 / 10) = true := decide_eq_true rfl
  simp only [argmaxIdx, hmax, List.findIdx_cons, h1, cond_true]
  rfl

theorem argmaxIdx_row3 : argmaxIdx [3 / 10, 7 / 10] = 1 := by
  have hmax : ([3 / 10, 7 / 10] : List ℚ).foldr max
      (([3 / 10, 7 / 10] : List ℚ).headD 0) = 7 / 10 := by
    show max (3 / 10 : ℚ) (max (7 / 10) (3 / 10)) = 7 / 10
    rw [max_eq_left (by norm_num : (3 / 10 : ℚ) ≤ 7 / 10),
      max_eq_right (by norm_num : (3 / 10 : ℚ) ≤ 7 / 10)]
  have h1 : decide ((3 / 10 : ℚ) = 7 / 10) = false :=
    decide_eq_false (by norm_num)
  have h2 : decide ((7 / 10 : ℚ) = 7 / 10) = true := decide_eq_true rfl
  simp only [argmaxIdx, hmax, List.findIdx_cons, h1, h2, cond_false, cond_true]
  rfl

/-- The spec's example predictions arg-max to classes `[1, 0, 1]`. -/
theorem argmax_example :
    ([[1 / 10, 9 / 10], [8 / 10, 2 / 10], [3 / 10, 7 / 10]] :
      List (List ℚ)).map argmaxIdx = [1, 0, 1] := by
  simp only [List.map_cons, List.map_nil, argmaxIdx_row1, argmaxIdx_row2,
    argmaxIdx_row3]

end MccExample

/-- C3: `_compute_metrics` returns the single-entry mapping whose only key is
`"mcc"` and whose value is the Matthews correlation coefficient of the
per-row arg-max of the predictions against the labels, a value in
`[-1, 1]`; on the spec's example `[[0.1,0.9],[0.8,0.2],[0.3,0.7]]` with
labels `[1,0,0]` the predicted classes are `[1,0,1]` and the value is
`1/2 ≠ 1`. -/
theorem computeMetrics_mcc_contract :
    (∀ (preds : List (List ℚ)) (labels : List Nat)
        (id2label : Option (List String)),
      preds.length = labels.length →
        ((computeMetrics (preds, labels) id2label).map Prod.fst = ["mcc"] ∧
          computeMetrics (preds, labels) id2label =
            [("mcc", matthewsCorr (preds.map argmaxIdx) labels)] ∧
          -1 ≤ matthewsCorr (preds.map argmaxIdx) labels ∧
          matthewsCorr (preds.map argmaxIdx) labels ≤ 1)) ∧
      (([[1 / 10, 9 / 10], [8 / 10, 2 / 10], [3 / 10, 7 / 10]] :
          List (List ℚ)).map argmaxIdx = [1, 0, 1] ∧
        matthewsCorr [1, 0, 1] [1, 0, 0] = 1 / 2 ∧
        matthewsCorr [1, 0, 1] [1, 0, 0] ≠ 1) := by
  constructor
  · intro preds labels id2label h
    have hlen : (preds.map argmaxIdx).length = labels.length := by
      rw [List.length_map]
      exact h
    obtain ⟨hlo, hhi⟩ := matthewsCorr_mem_Icc (preds.map argmaxIdx) labels hlen
    exact ⟨rfl, rfl, hlo, hhi⟩
  · refine ⟨argmax_example, matthewsCorr_example, ?_⟩
    rw [matthewsCorr_example]
    norm_num

theorem computeMetrics_mcc_witness :
    (computeMetrics
        ([[1 / 10, 9 / 10], [8 / 10, 2 / 10], [3 / 10, 7 / 10]], [1, 0, 0])
        none).map Prod.fst = ["mcc"] ∧
      -1 ≤ matthewsCorr
        (([[1 / 10, 9 / 10], [8 / 10, 2 / 10], [3 / 10, 7 / 10]] :
          List (List ℚ)).map argmaxIdx) [1, 0, 0] ∧
      matthewsCorr
        (([[1 / 10, 9 / 10], [8 / 10, 2 / 10], [3 / 10, 7 / 10]] :
          List (List ℚ)).map argmaxIdx) [1, 0, 0] ≤ 1 := by
  obtain ⟨h1, _, h3, h4⟩ := computeMetrics_mcc_contract.1
    [[1 / 10, 9 / 10], [8 / 10, 2 / 10], [3 / 10, 7 / 10]] [1, 0, 0] none rfl
  exact ⟨h1, h3, h4⟩

/-- C8: `_compute_metrics` never reads `id2label`: any two values of the
argument, `None` included, give the same result on the same predictions and
labels. -/
theorem computeMetrics_id2label_irrelevant
    (predictionsAndLabels : List (List ℚ) × List Nat)
    (a b : Option (List String)) :
    computeMetrics predictionsAndLabels a =
      computeMetrics predictionsAndLabels b := rfl

/-- C9: the four adapter hooks are pure functions of their arguments: calls
with identical arguments yield identical results, and the embedding threads
every effect (the in-place mutation of the batch dict) through the returned
value, there being no other state read or written. -/
theorem adapter_hooks_deterministic :
    (∀ (predictionsAndLabels : List (List ℚ) × List Nat)
        (id2label : Option (List String)),
      computeMetrics predictionsAndLabels id2label =
        computeMetrics predictionsAndLabels id2label) ∧
      (∀ (dataset : BatchE) (framework : String) (tok : TokenizerE)
          (label2id : Label2Id),
        preprocessData dataset framework tok label2id =
          preprocessData dataset framework tok label2id) ∧
      (∀ (examples : BatchE) (label2id : Label2Id),
        createNumericalLabels examples label2id =
          createNumericalLabels examples label2id ∧
          labelColAfterCall examples label2id =
            labelColAfterCall examples label2id) ∧
      (∀ tokenizer : Option TokenizerE,
        loadDataCollator tokenizer = loadDataCollator tokenizer) :=
  ⟨fun _ _ => rfl, fun _ _ _ _ => rfl, fun _ _ => ⟨rfl, rfl⟩, fun _ => rfl⟩

theorem preprocessData_spacy_witness :
    preprocessData [("text", Col.strs ["a"])] "spacy"
        ⟨fun docs => docs.map fun _ => [0], fun docs => docs.map fun _ => [1]⟩
        [("pos", 1)] =
      Except.error (BenchErr.invalidBenchmark spacyPreprocessMsg) :=
  (preprocessData_spacy [("text", Col.strs ["a"])]
    ⟨fun docs => docs.map fun _ => [0], fun docs => docs.map fun _ => [1]⟩
    [("pos", 1)]).1

theorem getSpacyPredictionsAndLabels_witness :
    getSpacyPredictionsAndLabels () [("text", Col.strs ["a"])] =
      Except.error (BenchErr.invalidBenchmark spacyPredictMsg) :=
  (getSpacyPredictionsAndLabels_always_raises ()
    [("text", Col.strs ["a"])]).1
